import Mathlib

/-!
Verification of `LanguageOfTheSpeaker/extract_embeddings.py`.

The script is embedded shallowly:
* the filesystem visible to the script is a `World`: an association list from
  manifest-file paths to parsed JSON arrays, and an association list from
  directory paths to their immediate-subdirectory listings (in
  directory-listing order, as `Path.iterdir` yields them);
* a manifest item (a JSON object) is an association list of string fields;
* paths are strings, joined with `"/"` exactly as `pathlib` renders them;
* the WeSpeaker model is a black-box function from a path to an embedding
  value of an abstract type `Emb`; loading the model, binding the device and
  per-file extraction are recorded in an event trace;
* `np.save` and ChromaDB writes act on an explicit `Store` state.
-/

namespace ExtractEmb

/-- Errors the script can raise: `FileNotFoundError` (carrying the offending
path) and `KeyError` (carrying the missing dictionary key). -/
inductive Err where
  | fileNotFound (path : String) : Err
  | keyError (key : String) : Err
deriving DecidableEq, Repr

/-- An immediate subdirectory of the dataset root: its name and the names of
the files it contains. -/
structure SubDir where
  name : String
  files : List String
deriving DecidableEq, Repr

/-- A manifest item: a JSON object, i.e. an association list of string
fields.  `item["filename"]` is a lookup that raises `KeyError` on a miss. -/
def ManifestItem : Type := List (String × String)

instance : DecidableEq ManifestItem := by
  unfold ManifestItem
  infer_instance

/-- Association-list lookup keyed by strings (Python `dict` access /
`os.path.exists` over our explicit filesystem). -/
def lookupStr {α : Type} : List (String × α) → String → Option α
  | [], _ => none
  | (k, v) :: rest, key => if k = key then some v else lookupStr rest key

/-- The filesystem the script sees: manifest files (path, parsed JSON array)
and directory listings (path, immediate subdirectories in listing order). -/
structure World where
  manifests : List (String × List ManifestItem)
  dirListings : List (String × List SubDir)

/-- `os.path.exists` restricted to the manifest files the script checks. -/
def pathExists (w : World) (p : String) : Bool :=
  (lookupStr w.manifests p).isSome

/-- `pathlib`-style join: `str(Path(a) / b) = a ++ "/" ++ b`. -/
def joinPath (a b : String) : String := a ++ "/" ++ b

/-- The inner loop of `get_audio_path`: scan the immediate subdirectories in
directory-listing order and return the first one whose file list contains
`filename` (the `for lang_dir in dataset_dir.iterdir(): ... break` loop). -/
def findDir : List SubDir → String → Option SubDir
  | [], _ => none
  | d :: ds, filename =>
      if filename ∈ d.files then some d else findDir ds filename

/-- The per-item loop of `get_audio_path`.  For each manifest item it reads
`item["filename"]` (raising `KeyError` on a miss), then iterates over the
dataset directory (raising `FileNotFoundError` if the directory does not
exist — note `iterdir` only runs when there is an item to process), and
appends `dataset_dir/lang_dir/filename` for the first subdirectory containing
the file; items found nowhere are skipped. -/
def locateItems (dataset_dir : String) (listing : Option (List SubDir)) :
    List ManifestItem → Except Err (List String)
  | [] => .ok []
  | item :: rest =>
      match lookupStr item "filename" with
      | none => .error (.keyError "filename")
      | some filename =>
          match listing with
          | none => .error (.fileNotFound dataset_dir)
          | some subdirs =>
              match locateItems dataset_dir listing rest with
              | .error e => .error e
              | .ok tail =>
                  match findDir subdirs filename with
                  | some d => .ok (joinPath (joinPath dataset_dir d.name) filename :: tail)
                  | none => .ok tail

/-- `get_audio_path(json_file, dataset_dir)`: open and parse the manifest
(`FileNotFoundError` if missing), then resolve each entry against the dataset
root's immediate subdirectories. -/
def get_audio_path (json_file dataset_dir : String) (w : World) :
    Except Err (List String) :=
  match lookupStr w.manifests json_file with
  | none => .error (.fileNotFound json_file)
  | some data =>
      locateItems dataset_dir (lookupStr w.dirListings dataset_dir) data

/-- A well-formed manifest built from a list of filenames, as the spec's data
model describes (`{filename: string}` objects). -/
def manifestOfNames (names : List String) : List ManifestItem :=
  names.map (fun n => [("filename", n)])

/-- The path `locate` produces for one filename, when some subdirectory
contains it: the first matching subdirectory in listing order. -/
def resolveName (dataset_dir : String) (subdirs : List SubDir) (n : String) :
    Option String :=
  (findDir subdirs n).map (fun d => joinPath (joinPath dataset_dir d.name) n)

theorem locateItems_manifestOfNames (dataset_dir : String)
    (subdirs : List SubDir) (names : List String) :
    locateItems dataset_dir (some subdirs) (manifestOfNames names) =
      .ok (names.filterMap (resolveName dataset_dir subdirs)) := by
  induction names with
  | nil => rfl
  | cons n ns ih =>
      simp only [manifestOfNames, List.map_cons] at *
      simp only [locateItems, lookupStr, if_pos rfl, ih, List.filterMap_cons,
        resolveName]
      cases h : findDir subdirs n with
      | none => simp [h]
      | some d => simp [h]

/-! ### Path parsing: `Path(p).parent.name` -/

/-- Split a character list at every `'/'` (how `pathlib` decomposes a POSIX
path string into components). -/
def splitSlash : List Char → List (List Char)
  | [] => [[]]
  | c :: cs =>
      match splitSlash cs with
      | [] => [[]]
      | g :: gs => if c = '/' then [] :: g :: gs else (c :: g) :: gs

theorem splitSlash_ne_nil (cs : List Char) : splitSlash cs ≠ [] := by
  cases cs with
  | nil => simp [splitSlash]
  | cons c cs =>
      simp only [splitSlash]
      cases h : splitSlash cs with
      | nil => simp
      | cons g gs =>
          by_cases hc : c = '/' <;> simp [hc]

/-- `Path(p).parent.name`: the second-to-last path component, or the empty
string when the path has a single component (whose parent is `"."`). -/
def parentName (p : String) : String :=
  match ((splitSlash p.data).dropLast).getLast? with
  | some s => String.mk s
  | none => ""

/-! ### Records, the model, and the extractor -/

/-- An embedding record, the dictionary built by `extract_embeddings`:
`label` is absent (`none`) until `assign_labels` adds it.  `Emb` is the
abstract type of the numeric vectors the model produces. -/
structure Record (Emb : Type) where
  file_path : String
  embedding : Emb
  label : Option String
deriving DecidableEq, Repr

/-- The black-box WeSpeaker model: one embedding per audio path. -/
structure Model (Emb : Type) where
  extractEmbedding : String → Emb

/-- Observable calls into the model library, recorded as a trace. -/
inductive Event where
  | loadModel (dir : String) : Event
  | setDevice (device : String) : Event
  | extract (path : String) : Event
deriving DecidableEq, Repr

/-- Whether an event is a `wespeaker.load_model_local` call. -/
def Event.isLoad : Event → Bool
  | .loadModel _ => true
  | _ => false

/-- Whether an event is a `model.set_device` call. -/
def Event.isSetDevice : Event → Bool
  | .setDevice _ => true
  | _ => false

/-- The per-file loop of `extract_embeddings`: one record (path, embedding,
no label) and one `extract_embedding` call per file, in input order. -/
def extractLoop {Emb : Type} (model : Model Emb) :
    List String → List (Record Emb) × List Event
  | [] => ([], [])
  | p :: ps =>
      let r : Record Emb :=
        { file_path := p, embedding := model.extractEmbedding p, label := none }
      let rest := extractLoop model ps
      (r :: rest.1, .extract p :: rest.2)

/-- `extract_embeddings(audio_files, device, pretrain_dir)`: load the model
once (`loader` stands for `wespeaker.load_model_local`), bind the device
once, then extract one embedding per file. -/
def extract_embeddings {Emb : Type} (audio_files : List String)
    (device : String) (pretrain_dir : String) (loader : String → Model Emb) :
    List (Record Emb) × List Event :=
  let model := loader pretrain_dir
  let rest := extractLoop model audio_files
  (rest.1, .loadModel pretrain_dir :: .setDevice device :: rest.2)

/-- `assign_labels(embeddings)`: set each record's `label` to
`Path(record.file_path).parent.name`. -/
def assign_labels {Emb : Type} (embeddings : List (Record Emb)) :
    List (Record Emb) :=
  embeddings.map (fun emb => { emb with label := some (parentName emb.file_path) })

/-! ### Decimal rendering of natural numbers (Python `str(i)` in f-strings) -/

/-- The decimal digits of `n`, most significant first. -/
def natDigits (n : Nat) : List Nat :=
  if _h : n < 10 then [n] else natDigits (n / 10) ++ [n % 10]
termination_by n
decreasing_by
  exact Nat.div_lt_self (by omega) (by omega)

/-- A decimal digit rendered as a character. -/
def digChar (d : Nat) : Char := Char.ofNat (48 + d)

/-- Python's `str(i)` for a natural number: decimal notation. -/
def natStr (n : Nat) : String := String.mk ((natDigits n).map digChar)

/-- The numeric value of a digit list, most significant first. -/
def valOf (ds : List Nat) : Nat := ds.foldl (fun a d => a * 10 + d) 0

theorem valOf_append_singleton (xs : List Nat) (d : Nat) :
    valOf (xs ++ [d]) = valOf xs * 10 + d := by
  simp [valOf, List.foldl_append]

theorem valOf_natDigits (n : Nat) : valOf (natDigits n) = n := by
  induction n using Nat.strong_induction_on with
  | _ n ih =>
      by_cases h : n < 10
      · rw [natDigits, dif_pos h]
        simp [valOf]
      · rw [natDigits, dif_neg h, valOf_append_singleton,
          ih (n / 10) (Nat.div_lt_self (by omega) (by omega))]
        omega

theorem natDigits_injective : Function.Injective natDigits := by
  intro a b h
  have := congrArg valOf h
  rwa [valOf_natDigits, valOf_natDigits] at this

theorem natDigits_lt (n : Nat) : ∀ d ∈ natDigits n, d < 10 := by
  induction n using Nat.strong_induction_on with
  | _ n ih =>
      by_cases h : n < 10
      · rw [natDigits, dif_pos h]
        simp [h]
      · rw [natDigits, dif_neg h]
        intro d hd
        rcases List.mem_append.mp hd with h1 | h2
        · exact ih (n / 10) (Nat.div_lt_self (by omega) (by omega)) d h1
        · simp only [List.mem_singleton] at h2
          omega

theorem digChar_inj {d e : Nat} (hd : d < 10) (he : e < 10)
    (h : digChar d = digChar e) : d = e := by
  have key : ∀ a : Fin 10, ∀ b : Fin 10,
      digChar a.val = digChar b.val → a = b := by decide
  have := key ⟨d, hd⟩ ⟨e, he⟩ h
  exact congrArg Fin.val this

theorem map_digChar_inj : ∀ {xs ys : List Nat}, (∀ d ∈ xs, d < 10) →
    (∀ d ∈ ys, d < 10) → xs.map digChar = ys.map digChar → xs = ys := by
  intro xs
  induction xs with
  | nil =>
      intro ys _ _ h
      cases ys with
      | nil => rfl
      | cons y ys => simp at h
  | cons x xs ih =>
      intro ys hx hy h
      cases ys with
      | nil => simp at h
      | cons y ys =>
          simp only [List.map_cons, List.cons.injEq] at h
          have h1 : x = y :=
            digChar_inj (hx x (by simp)) (hy y (by simp)) h.1
          have h2 : xs = ys :=
            ih (fun d hd => hx d (by simp [hd]))
              (fun d hd => hy d (by simp [hd])) h.2
          rw [h1, h2]

theorem natStr_injective : Function.Injective natStr := by
  intro a b h
  have hdata : (natDigits a).map digChar = (natDigits b).map digChar := by
    simpa [natStr] using congrArg String.data h
  exact natDigits_injective
    (map_digChar_inj (natDigits_lt a) (natDigits_lt b) hdata)

/-- The synthesized ChromaDB identifier for index `i` within a split:
the Python f-string `split + "_" + str(i)`. -/
def idStr (split : String) (i : Nat) : String := split ++ "_" ++ natStr i

theorem idStr_inj (split : String) {i j : Nat}
    (h : idStr split i = idStr split j) : i = j := by
  apply natStr_injective
  have hd := congrArg String.data h
  simp only [idStr, String.data_append, List.append_assoc] at hd
  have h2 : (natStr i).data = (natStr j).data :=
    List.append_cancel_left (List.append_cancel_left hd)
  cases hni : natStr i with
  | mk da =>
      cases hnj : natStr j with
      | mk db =>
          rw [hni, hnj] at h2
          exact congrArg String.mk (by simpa using h2)

/-! ### Persistence: array file and vector database -/

/-- Replace-or-append update of a string-keyed association list (assignment
into a `dict`, or overwriting a file at a path). -/
def setEntry {α : Type} : List (String × α) → String → α → List (String × α)
  | [], k, v => [(k, v)]
  | (k', v') :: rest, k, v =>
      if k' = k then (k, v) :: rest else (k', v') :: setEntry rest k v

/-- The container written by the array-file strategy: the dictionary
`{"train": ..., "test": ...}` that `main` builds before calling
`save_to_npy`. -/
structure SplitDict (Emb : Type) where
  train : List (Record Emb)
  test : List (Record Emb)
deriving DecidableEq, Repr

/-- `save_to_npy(embeddings, save_dir)`: `np.save` of the container at
`os.path.join(save_dir, "numpy_embs.npy")`, overwriting whatever is there.
The filesystem of written array files is an association list from paths to
contents; a content is the list that `np.array` wrapped. -/
def save_to_npy {Emb : Type} (embeddings : List (SplitDict Emb))
    (save_dir : String) (files : List (String × List (SplitDict Emb))) :
    List (String × List (SplitDict Emb)) :=
  setEntry files (joinPath save_dir "numpy_embs.npy") embeddings

/-- The metadata dictionary stored with each ChromaDB record. -/
structure DbMeta where
  file_path : String
  label : String
  split : String
deriving DecidableEq, Repr

/-- One record inside a ChromaDB collection. -/
structure DbRecord (Emb : Type) where
  id : String
  embedding : Emb
  metadata : DbMeta
deriving DecidableEq, Repr

/-- A ChromaDB database: collection name to records, in insertion order. -/
abbrev DbFile (Emb : Type) : Type := List (String × List (DbRecord Emb))

/-- All persistent ChromaDB databases: path to database. -/
abbrev DbMap (Emb : Type) : Type := List (String × DbFile Emb)

/-- Modelled from the spec: the vector-database client is an external black
box; per the spec its collision policy for `collection.add` is
overwrite-by-id, so adding a record whose id is already present replaces
that record, and a fresh id is appended. -/
def upsert {Emb : Type} (coll : List (DbRecord Emb)) (r : DbRecord Emb) :
    List (DbRecord Emb) :=
  if coll.any (fun x => x.id = r.id) then
    coll.map (fun x => if x.id = r.id then r else x)
  else coll ++ [r]

/-- Modelled from the spec: `collection.add(ids, embeddings, metadatas)`
inserts the triples pairwise, each under the overwrite-by-id policy. -/
def collAdd {Emb : Type} (coll : List (DbRecord Emb)) :
    List String → List Emb → List DbMeta → List (DbRecord Emb)
  | i :: is, e :: es, m :: ms => collAdd (upsert coll ⟨i, e, m⟩) is es ms
  | _, _, _ => coll

/-- The `metadatas` list comprehension in `save_to_chromadb`: one metadata
dictionary per record, raising `KeyError` when a record has no label. -/
def metadatasOf {Emb : Type} (split : String) :
    List (Record Emb) → Except Err (List DbMeta)
  | [] => .ok []
  | item :: rest =>
      match item.label with
      | none => .error (.keyError "label")
      | some l =>
          match metadatasOf split rest with
          | .error e => .error e
          | .ok ms => .ok (⟨item.file_path, l, split⟩ :: ms)

/-- `save_to_chromadb(embeddings, db_path, split)`: open (or create) the
persistent database at `db_path`, get or create the collection
`"gender_embeddings"`, and add every record under the id
`split + "_" + str(index)` with its embedding and
`{file_path, label, split}` metadata. -/
def save_to_chromadb {Emb : Type} (embeddings : List (Record Emb))
    (db_path : String) (split : String) (db : DbMap Emb) :
    Except Err (DbMap Emb) :=
  let file := (lookupStr db db_path).getD []
  let coll := (lookupStr file "gender_embeddings").getD []
  let ids := (List.range embeddings.length).map (idStr split)
  let embs := embeddings.map (fun item => item.embedding)
  match metadatasOf split embeddings with
  | .error e => .error e
  | .ok metas =>
      .ok (setEntry db db_path
        (setEntry file "gender_embeddings" (collAdd coll ids embs metas)))

/-! ### The orchestrator (`main`) -/

/-- The `--output` CLI choice. -/
inductive OutputKind where
  | npy : OutputKind
  | chromadb : OutputKind
deriving DecidableEq, Repr

/-- Parsed command-line arguments, with the argparse defaults. -/
structure Args where
  dataset_dir : String := "./dataset"
  train_dir : String := "./train_audio"
  test_dir : String := "./test_audio"
  pretrain_dir : String := "./pretrain_dir"
  output : OutputKind
  save_path : String := "./embeddings"
deriving DecidableEq, Repr

/-- `os.makedirs(p, exist_ok=True)` over the list of directories made. -/
def makeDirs (dirs : List String) (p : String) : List String :=
  if p ∈ dirs then dirs else dirs ++ [p]

/-- The mutable world `main` writes into: array files written by `np.save`,
directories created by `os.makedirs`, and the ChromaDB databases. -/
structure Store (Emb : Type) where
  files : List (String × List (SplitDict Emb))
  dirsMade : List String
  db : DbMap Emb
deriving DecidableEq, Repr

/-- `main()`: validate that the two manifest paths exist (raising
`FileNotFoundError` otherwise), pick the device, resolve train then test
paths, extract train then test embeddings, assign labels, and dispatch to
the selected persistence strategy.  Returns the resulting store (or the
uncaught error) together with the trace of model-library calls. -/
def main {Emb : Type} (args : Args) (w : World) (cudaAvailable : Bool)
    (loader : String → Model Emb) (store : Store Emb) :
    Except Err (Store Emb) × List Event :=
  if pathExists w args.train_dir = false then
    (.error (.fileNotFound args.train_dir), [])
  else if pathExists w args.test_dir = false then
    (.error (.fileNotFound args.test_dir), [])
  else
    let device := if cudaAvailable then "cuda" else "cpu"
    match get_audio_path args.train_dir args.dataset_dir w with
    | .error e => (.error e, [])
    | .ok train_audio_files =>
        match get_audio_path args.test_dir args.dataset_dir w with
        | .error e => (.error e, [])
        | .ok test_audio_files =>
            let tr := extract_embeddings train_audio_files device
              args.pretrain_dir loader
            let te := extract_embeddings test_audio_files device
              args.pretrain_dir loader
            let train_embeddings := assign_labels tr.1
            let test_embeddings := assign_labels te.1
            let events := tr.2 ++ te.2
            match args.output with
            | .npy =>
                let dirs2 := makeDirs store.dirsMade args.save_path
                let embeddings := [SplitDict.mk train_embeddings test_embeddings]
                let files2 := save_to_npy embeddings args.save_path store.files
                (.ok { store with dirsMade := dirs2, files := files2 }, events)
            | .chromadb =>
                match save_to_chromadb train_embeddings args.save_path
                    "train" store.db with
                | .error e => (.error e, events)
                | .ok db1 =>
                    match save_to_chromadb test_embeddings args.save_path
                        "test" db1 with
                    | .error e => (.error e, events)
                    | .ok db2 => (.ok { store with db := db2 }, events)

/-! ### Supporting lemmas -/

theorem extractLoop_records {Emb : Type} (model : Model Emb) (ps : List String) :
    (extractLoop model ps).1 =
      ps.map (fun p =>
        { file_path := p, embedding := model.extractEmbedding p,
          label := none }) := by
  induction ps with
  | nil => rfl
  | cons p ps ih => simp [extractLoop, ih]

theorem extractLoop_events {Emb : Type} (model : Model Emb) (ps : List String) :
    (extractLoop model ps).2 = ps.map Event.extract := by
  induction ps with
  | nil => rfl
  | cons p ps ih => simp [extractLoop, ih]

theorem extract_embeddings_records {Emb : Type} (files : List String)
    (device pretrain_dir : String) (loader : String → Model Emb) :
    (extract_embeddings files device pretrain_dir loader).1 =
      files.map (fun p =>
        { file_path := p,
          embedding := (loader pretrain_dir).extractEmbedding p,
          label := none }) := by
  simp [extract_embeddings, extractLoop_records]

theorem extract_embeddings_events {Emb : Type} (files : List String)
    (device pretrain_dir : String) (loader : String → Model Emb) :
    (extract_embeddings files device pretrain_dir loader).2 =
      .loadModel pretrain_dir :: .setDevice device ::
        files.map Event.extract := by
  simp [extract_embeddings, extractLoop_events]

theorem lookupStr_setEntry_self {α : Type} (l : List (String × α))
    (k : String) (v : α) : lookupStr (setEntry l k v) k = some v := by
  induction l with
  | nil => simp [setEntry, lookupStr]
  | cons p rest ih =>
      by_cases h : p.1 = k
      · simp [setEntry, h, lookupStr]
      · simp [setEntry, h, lookupStr, ih]

theorem setEntry_setEntry_self {α : Type} (l : List (String × α))
    (k : String) (v v' : α) :
    setEntry (setEntry l k v) k v' = setEntry l k v' := by
  induction l with
  | nil => simp [setEntry]
  | cons p rest ih =>
      by_cases h : p.1 = k
      · simp [setEntry, h]
      · simp [setEntry, h, ih]

theorem makeDirs_mem (dirs : List String) (p : String) :
    p ∈ makeDirs dirs p := by
  by_cases h : p ∈ dirs <;> simp [makeDirs, h]

theorem makeDirs_makeDirs (dirs : List String) (p : String) :
    makeDirs (makeDirs dirs p) p = makeDirs dirs p := by
  rw [makeDirs, if_pos (makeDirs_mem dirs p)]

theorem splitSlash_append (xs ys : List Char) :
    splitSlash (xs ++ '/' :: ys) = splitSlash xs ++ splitSlash ys := by
  induction xs with
  | nil =>
      cases h : splitSlash ys with
      | nil => exact absurd h (splitSlash_ne_nil ys)
      | cons g gs => simp [splitSlash, h]
  | cons c xs ih =>
      cases hx : splitSlash xs with
      | nil => exact absurd hx (splitSlash_ne_nil xs)
      | cons g gs =>
          simp only [List.cons_append, splitSlash, ih, hx]
          by_cases hc : c = '/'
          · simp [hc, ih, hx]
          · simp [hc, ih, hx]

theorem splitSlash_no_slash :
    ∀ xs : List Char, '/' ∉ xs → splitSlash xs = [xs] := by
  intro xs
  induction xs with
  | nil => intro _; rfl
  | cons c cs ih =>
      intro h
      have hc : c ≠ '/' := by
        intro hc
        exact h (by simp [hc])
      have hcs : '/' ∉ cs := fun hm => h (by simp [hm])
      simp [splitSlash, ih hcs, hc]

theorem parentName_joinPath (a b c : String) (hb : '/' ∉ b.data)
    (hc : '/' ∉ c.data) :
    parentName (joinPath (joinPath a b) c) = b := by
  have hdata : (joinPath (joinPath a b) c).data
      = a.data ++ '/' :: (b.data ++ '/' :: c.data) := by
    simp [joinPath, String.data_append]
  simp only [parentName, hdata, splitSlash_append,
    splitSlash_no_slash b.data hb, splitSlash_no_slash c.data hc]
  rw [show splitSlash a.data ++ ([b.data] ++ [c.data])
      = (splitSlash a.data ++ [b.data]) ++ [c.data] by simp,
    List.dropLast_concat, List.getLast?_concat]

theorem findDir_mem :
    ∀ (subdirs : List SubDir) (n : String) (d : SubDir),
      findDir subdirs n = some d → d ∈ subdirs := by
  intro subdirs
  induction subdirs with
  | nil => intro n d h; simp [findDir] at h
  | cons s ss ih =>
      intro n d h
      by_cases hm : n ∈ s.files
      · simp [findDir, hm] at h
        simp [h]
      · simp only [findDir, if_neg hm] at h
        exact List.mem_cons_of_mem s (ih n d h)

theorem length_filterMap_all_some {α β : Type} (f : α → Option β) :
    ∀ l : List α, (∀ x ∈ l, (f x).isSome) →
      (l.filterMap f).length = l.length := by
  intro l
  induction l with
  | nil => intro _; rfl
  | cons x xs ih =>
      intro h
      have hx := h x (by simp)
      obtain ⟨y, hy⟩ := Option.isSome_iff_exists.mp hx
      simp [List.filterMap_cons, hy, ih (fun z hz => h z (by simp [hz]))]

/-- Folding `upsert` over a list of records: how `collection.add` processes
its triples in order. -/
def addAll {Emb : Type} (coll : List (DbRecord Emb)) :
    List (DbRecord Emb) → List (DbRecord Emb)
  | [] => coll
  | r :: rs => addAll (upsert coll r) rs

/-- The metadata dictionary `save_to_chromadb` builds for a labeled record. -/
def metaOfRecord {Emb : Type} (split : String) (r : Record Emb) : DbMeta :=
  ⟨r.file_path, r.label.getD "", split⟩

/-- The database records `save_to_chromadb` builds for a batch, starting at
index `k`: id `split_k`, the record's embedding, and its metadata. -/
def expectedFrom {Emb : Type} (split : String) :
    Nat → List (Record Emb) → List (DbRecord Emb)
  | _, [] => []
  | k, it :: rest =>
      ⟨idStr split k, it.embedding, metaOfRecord split it⟩ ::
        expectedFrom split (k + 1) rest

/-- The contents of collection `"gender_embeddings"` in the database at
`path` (empty when absent). -/
def collectionAt {Emb : Type} (db : DbMap Emb) (path : String) :
    List (DbRecord Emb) :=
  (lookupStr ((lookupStr db path).getD []) "gender_embeddings").getD []

theorem metadatasOf_all_some {Emb : Type} (split : String) :
    ∀ items : List (Record Emb), (∀ r ∈ items, r.label ≠ none) →
      metadatasOf split items = .ok (items.map (metaOfRecord split)) := by
  intro items
  induction items with
  | nil => intro _; rfl
  | cons it rest ih =>
      intro h
      cases hl : it.label with
      | none => exact absurd hl (h it (by simp))
      | some l =>
          simp [metadatasOf, hl, ih (fun r hr => h r (by simp [hr])),
            metaOfRecord]

theorem collAdd_range' {Emb : Type} (split : String) :
    ∀ (items : List (Record Emb)) (coll : List (DbRecord Emb)) (k : Nat),
      collAdd coll ((List.range' k items.length).map (idStr split))
        (items.map (fun item => item.embedding))
        (items.map (metaOfRecord split)) =
      addAll coll (expectedFrom split k items) := by
  intro items
  induction items with
  | nil => intro coll k; rfl
  | cons it rest ih =>
      intro coll k
      simp only [List.length_cons, List.range'_succ, List.map_cons,
        collAdd, expectedFrom, addAll]
      exact ih (upsert coll ⟨idStr split k, it.embedding, metaOfRecord split it⟩)
        (k + 1)

theorem upsert_not_mem {Emb : Type} (coll : List (DbRecord Emb))
    (r : DbRecord Emb) (h : r.id ∉ coll.map (fun x => x.id)) :
    upsert coll r = coll ++ [r] := by
  have hany : coll.any (fun x => x.id = r.id) = false := by
    rw [List.any_eq_false]
    intro x hx hex
    exact h (List.mem_map.mpr ⟨x, hx, by simpa using hex⟩)
  simp [upsert, hany]

theorem map_upsert_id {Emb : Type} (r : DbRecord Emb) :
    ∀ coll : List (DbRecord Emb), (∀ x ∈ coll, x.id = r.id → x = r) →
      coll.map (fun x => if x.id = r.id then r else x) = coll := by
  intro coll
  induction coll with
  | nil => intro _; rfl
  | cons x xs ih =>
      intro h
      by_cases hx : x.id = r.id
      · simp only [List.map_cons, if_pos hx, h x (by simp) hx,
          ih (fun y hy => h y (by simp [hy]))]
        simp
      · simp only [List.map_cons, if_neg hx,
          ih (fun y hy => h y (by simp [hy]))]

theorem upsert_eq_self {Emb : Type} (coll : List (DbRecord Emb))
    (r : DbRecord Emb) (hmem : r ∈ coll)
    (huniq : ∀ x ∈ coll, x.id = r.id → x = r) : upsert coll r = coll := by
  have hany : coll.any (fun x => x.id = r.id) = true :=
    List.any_eq_true.mpr ⟨r, hmem, by simp⟩
  simp only [upsert, hany, if_true]
  exact map_upsert_id r coll huniq

theorem addAll_fresh {Emb : Type} :
    ∀ (rs coll : List (DbRecord Emb)),
      (∀ r ∈ rs, r.id ∉ coll.map (fun x => x.id)) →
      (rs.map (fun x => x.id)).Nodup →
      addAll coll rs = coll ++ rs := by
  intro rs
  induction rs with
  | nil => intro coll _ _; simp [addAll]
  | cons r rs ih =>
      intro coll hfresh hnd
      have hup : upsert coll r = coll ++ [r] :=
        upsert_not_mem coll r (hfresh r (by simp))
      simp only [List.map_cons, List.nodup_cons] at hnd
      have hstep : addAll (coll ++ [r]) rs = (coll ++ [r]) ++ rs := by
        apply ih
        · intro s hs hmem
          rw [List.map_append] at hmem
          rcases List.mem_append.mp hmem with h1 | h2
          · exact hfresh s (by simp [hs]) h1
          · simp only [List.map_cons, List.map_nil,
              List.mem_singleton] at h2
            exact hnd.1 (h2 ▸ List.mem_map.mpr ⟨s, hs, rfl⟩)
        · exact hnd.2
      simp only [addAll, hup, hstep]
      simp

theorem addAll_id_self {Emb : Type} :
    ∀ (rs coll : List (DbRecord Emb)),
      (∀ r ∈ rs, r ∈ coll) →
      (∀ x ∈ coll, ∀ y ∈ coll, x.id = y.id → x = y) →
      addAll coll rs = coll := by
  intro rs
  induction rs with
  | nil => intro coll _ _; rfl
  | cons r rs ih =>
      intro coll hmem huniq
      have hup : upsert coll r = coll :=
        upsert_eq_self coll r (hmem r (by simp))
          (fun x hx hid => huniq x hx r (hmem r (by simp)) hid)
      simp only [addAll, hup]
      exact ih coll (fun s hs => hmem s (by simp [hs])) huniq

theorem expectedFrom_length {Emb : Type} (split : String) :
    ∀ (k : Nat) (items : List (Record Emb)),
      (expectedFrom split k items).length = items.length := by
  intro k items
  induction items generalizing k with
  | nil => rfl
  | cons it rest ih => simp [expectedFrom, ih]

theorem expectedFrom_ids {Emb : Type} (split : String) :
    ∀ (k : Nat) (items : List (Record Emb)),
      (expectedFrom split k items).map (fun r => r.id) =
        (List.range' k items.length).map (idStr split) := by
  intro k items
  induction items generalizing k with
  | nil => rfl
  | cons it rest ih =>
      simp only [expectedFrom, List.map_cons, List.length_cons,
        List.range'_succ, ih]

theorem idStr_injective (split : String) : Function.Injective (idStr split) :=
  fun _ _ h => idStr_inj split h

theorem expectedFrom_ids_nodup {Emb : Type} (split : String) (k : Nat)
    (items : List (Record Emb)) :
    ((expectedFrom split k items).map (fun r => r.id)).Nodup := by
  rw [expectedFrom_ids]
  exact (List.nodup_range' k items.length 1 (by norm_num)).map
    (idStr_injective split)

theorem idStr_train_ne_test (i j : Nat) :
    idStr "train" i ≠ idStr "test" j := by
  intro h
  have hd := congrArg String.data h
  simp only [idStr, String.data_append] at hd
  simp at hd

theorem locateItems_no_dataset (dataset_dir : String) :
    ∀ items : List ManifestItem, items ≠ [] →
      ∃ e, (e = Err.fileNotFound dataset_dir ∨ e = Err.keyError "filename") ∧
        locateItems dataset_dir none items = .error e := by
  intro items hne
  cases items with
  | nil => exact absurd rfl hne
  | cons item rest =>
      cases hk : lookupStr item "filename" with
      | none =>
          exact ⟨Err.keyError "filename", Or.inr rfl, by
            simp [locateItems, hk]⟩
      | some f =>
          exact ⟨Err.fileNotFound dataset_dir, Or.inl rfl, by
            simp [locateItems, hk]⟩

theorem locateItems_missing_key (dataset_dir : String)
    (subdirs : List SubDir) :
    ∀ items : List ManifestItem,
      (∃ bad ∈ items, lookupStr bad "filename" = none) →
      locateItems dataset_dir (some subdirs) items =
        .error (Err.keyError "filename") := by
  intro items
  induction items with
  | nil => intro h; simp at h
  | cons item rest ih =>
      intro h
      cases hk : lookupStr item "filename" with
      | none => simp [locateItems, hk]
      | some f =>
          obtain ⟨bad, hmem, hbad⟩ := h
          have hrest : ∃ bad ∈ rest, lookupStr bad "filename" = none := by
            rcases List.mem_cons.mp hmem with h1 | h2
            · rw [h1] at hbad
              rw [hbad] at hk
              exact absurd hk (by simp)
            · exact ⟨bad, h2, hbad⟩
          simp [locateItems, hk, ih hrest]

theorem locateItems_ok_or_keyError (dataset_dir : String)
    (subdirs : List SubDir) :
    ∀ items : List ManifestItem,
      locateItems dataset_dir (some subdirs) items =
          .error (Err.keyError "filename") ∨
        ∃ out, locateItems dataset_dir (some subdirs) items = .ok out := by
  intro items
  induction items with
  | nil => exact Or.inr ⟨[], rfl⟩
  | cons item rest ih =>
      cases hk : lookupStr item "filename" with
      | none => exact Or.inl (by simp [locateItems, hk])
      | some f =>
          rcases ih with he | ⟨out, ho⟩
          · exact Or.inl (by simp [locateItems, hk, he])
          · cases hf : findDir subdirs f with
            | some d =>
                exact Or.inr ⟨joinPath (joinPath dataset_dir d.name) f :: out,
                  by simp [locateItems, hk, ho, hf]⟩
            | none =>
                exact Or.inr ⟨out, by simp [locateItems, hk, ho, hf]⟩

/-- Unpacking membership in `assign_labels`: every output record is an input
record with the parent-directory label added. -/
theorem mem_assign_labels {Emb : Type} (records : List (Record Emb))
    (r : Record Emb) (hr : r ∈ assign_labels records) :
    ∃ s ∈ records,
      r = { s with label := some (parentName s.file_path) } := by
  simp only [assign_labels, List.mem_map] at hr
  obtain ⟨s, hs, hsr⟩ := hr
  exact ⟨s, hs, hsr.symm⟩

/-! ### The claims -/

/-- C1: for every manifest of filenames and every dataset root,
`get_audio_path` returns, in manifest order, one path per entry whose
filename exists under some immediate subdirectory of the root — the path
formed with the first such subdirectory in directory-listing order
(`findDir` scans the listing front to back) — and no path for entries found
under no subdirectory (`resolveName` is `none` exactly then), so the output
has length at most the manifest length and matches preserve manifest
order. -/
theorem C1_locate_spec (json_file dataset_dir : String) (w : World)
    (names : List String) (subdirs : List SubDir)
    (hm : lookupStr w.manifests json_file = some (manifestOfNames names))
    (hd : lookupStr w.dirListings dataset_dir = some subdirs) :
    get_audio_path json_file dataset_dir w =
      .ok (names.filterMap (resolveName dataset_dir subdirs)) ∧
    (names.filterMap (resolveName dataset_dir subdirs)).length ≤
      names.length := by
  constructor
  · simp only [get_audio_path, hm, hd]
    exact locateItems_manifestOfNames dataset_dir subdirs names
  · exact List.length_filterMap_le _ _

theorem C1_locate_spec_witness :
    get_audio_path "train.json" "./dataset"
        ⟨[("train.json", manifestOfNames ["a.wav", "b.wav"])],
         [("./dataset", [⟨"en", ["a.wav"]⟩])]⟩ =
      .ok (["a.wav", "b.wav"].filterMap
        (resolveName "./dataset" [⟨"en", ["a.wav"]⟩])) ∧
    (["a.wav", "b.wav"].filterMap
        (resolveName "./dataset" [⟨"en", ["a.wav"]⟩])).length ≤
      (["a.wav", "b.wav"] : List String).length :=
  C1_locate_spec "train.json" "./dataset" _ ["a.wav", "b.wav"]
    [⟨"en", ["a.wav"]⟩] rfl rfl

/-- C2: after `assign_labels`, every record's `label` equals the name of the
immediate parent directory of that record's `file_path`
(`parentName`, the embedding of `Path(...).parent.name`) — a deterministic
pure function of the path string. -/
theorem C2_assign_labels_spec {Emb : Type} (records : List (Record Emb)) :
    ∀ r ∈ assign_labels records,
      r.label = some (parentName r.file_path) := by
  intro r hr
  obtain ⟨s, _, rfl⟩ := mem_assign_labels records r hr
  rfl

theorem C2_assign_labels_spec_witness :
    (⟨"dataset/en/a.wav", 7, some "en"⟩ : Record Nat).label =
      some (parentName
        (⟨"dataset/en/a.wav", 7, some "en"⟩ : Record Nat).file_path) :=
  C2_assign_labels_spec [(⟨"dataset/en/a.wav", 7, none⟩ : Record Nat)]
    ⟨"dataset/en/a.wav", 7, some "en"⟩ (by decide)

/-- C5: `extract_embeddings` loads the model exactly once and binds the
device exactly once per call (one `loadModel` and one `setDevice` event in
the trace), and returns exactly one record per input path, in input order,
with `file_path` the input path and `embedding` the loaded model's output
for that path (and no label yet). -/
theorem C5_extract_spec {Emb : Type} (files : List String)
    (device pretrain_dir : String) (loader : String → Model Emb) :
    (extract_embeddings files device pretrain_dir loader).2.countP
        Event.isLoad = 1 ∧
    (extract_embeddings files device pretrain_dir loader).2.countP
        Event.isSetDevice = 1 ∧
    (extract_embeddings files device pretrain_dir loader).1 =
      files.map (fun p =>
        { file_path := p,
          embedding := (loader pretrain_dir).extractEmbedding p,
          label := none }) := by
  refine ⟨?_, ?_, extract_embeddings_records files device pretrain_dir loader⟩
  · rw [extract_embeddings_events]
    simp [List.countP_cons, List.countP_map, Event.isLoad,
      Event.isSetDevice, Function.comp]
  · rw [extract_embeddings_events]
    simp [List.countP_cons, List.countP_map, Event.isLoad,
      Event.isSetDevice, Function.comp]

/-- C4: if the train manifest path does not exist — or it exists and the
test manifest path does not — `main` stops with the corresponding
file-not-found error and an empty model-library trace: no path resolution
result is used and the extractor is never invoked. -/
theorem C4_validation (Emb : Type) (args : Args) (w : World) (cuda : Bool)
    (loader : String → Model Emb) (store : Store Emb) :
    (pathExists w args.train_dir = false →
      main args w cuda loader store =
        (.error (.fileNotFound args.train_dir), [])) ∧
    (pathExists w args.train_dir = true →
      pathExists w args.test_dir = false →
      main args w cuda loader store =
        (.error (.fileNotFound args.test_dir), [])) := by
  constructor
  · intro h
    simp [main, h]
  · intro h1 h2
    simp [main, h1, h2]

theorem C4_validation_witness :
    main ⟨"d", "tj", "sj", "p", .npy, "s"⟩ (World.mk [] []) false
        (fun _ => Model.mk (fun _ => (0 : Nat))) (Store.mk [] [] []) =
      (.error (.fileNotFound "tj"), []) ∧
    main ⟨"d", "tj", "sj", "p", .npy, "s"⟩
        (World.mk [("tj", [])] []) false
        (fun _ => Model.mk (fun _ => (0 : Nat))) (Store.mk [] [] []) =
      (.error (.fileNotFound "sj"), []) :=
  ⟨(C4_validation Nat ⟨"d", "tj", "sj", "p", .npy, "s"⟩ (World.mk [] [])
      false (fun _ => Model.mk (fun _ => (0 : Nat)))
      (Store.mk [] [] [])).1 rfl,
   (C4_validation Nat ⟨"d", "tj", "sj", "p", .npy, "s"⟩
      (World.mk [("tj", [])] []) false
      (fun _ => Model.mk (fun _ => (0 : Nat)))
      (Store.mk [] [] [])).2 rfl rfl⟩

/-- C7: on a successful npy run, `main` wraps the labeled train and test
record lists into the single container `[{train, test}]`, writes it as one
file at `save_path/numpy_embs.npy` (overwriting whatever any prior store
held at that path, since the conclusion holds for every `store`), records
the creation of `save_path`, and leaves the databases untouched. -/
theorem C7_npy_layout {Emb : Type} (args : Args) (w : World) (cuda : Bool)
    (loader : String → Model Emb) (store : Store Emb) (tp sp : List String)
    (h1 : pathExists w args.train_dir = true)
    (h2 : pathExists w args.test_dir = true)
    (hg1 : get_audio_path args.train_dir args.dataset_dir w = .ok tp)
    (hg2 : get_audio_path args.test_dir args.dataset_dir w = .ok sp)
    (hout : args.output = .npy) :
    ∃ store1 evs, main args w cuda loader store = (.ok store1, evs) ∧
      store1.files = setEntry store.files
        (joinPath args.save_path "numpy_embs.npy")
        [⟨assign_labels (extract_embeddings tp
            (if cuda then "cuda" else "cpu") args.pretrain_dir loader).1,
          assign_labels (extract_embeddings sp
            (if cuda then "cuda" else "cpu") args.pretrain_dir loader).1⟩] ∧
      lookupStr store1.files (joinPath args.save_path "numpy_embs.npy") =
        some [⟨assign_labels (extract_embeddings tp
            (if cuda then "cuda" else "cpu") args.pretrain_dir loader).1,
          assign_labels (extract_embeddings sp
            (if cuda then "cuda" else "cpu") args.pretrain_dir loader).1⟩] ∧
      args.save_path ∈ store1.dirsMade ∧
      store1.db = store.db := by
  simp only [main, h1, h2, hg1, hg2, hout]
  refine ⟨_, _, rfl, ?_, ?_, ?_, rfl⟩
  · simp [save_to_npy]
  · simp [save_to_npy, lookupStr_setEntry_self]
  · exact makeDirs_mem store.dirsMade args.save_path

theorem C7_npy_layout_witness :
    ∃ store1 evs,
      main ⟨"dd", "tj", "sj", "p", .npy, "out"⟩
          (World.mk [("tj", manifestOfNames ["a.wav"]), ("sj", manifestOfNames [])]
            [("dd", [SubDir.mk "en" ["a.wav"]])])
          false (fun _ => Model.mk (fun p => p.length)) (Store.mk [] [] []) =
        (.ok store1, evs) ∧
      store1.files = setEntry []
        (joinPath "out" "numpy_embs.npy")
        [⟨assign_labels (extract_embeddings ["dd/en/a.wav"] "cpu" "p"
            (fun _ => Model.mk (fun p => p.length))).1,
          assign_labels (extract_embeddings [] "cpu" "p"
            (fun _ => Model.mk (fun p => p.length))).1⟩] ∧
      lookupStr store1.files (joinPath "out" "numpy_embs.npy") =
        some [⟨assign_labels (extract_embeddings ["dd/en/a.wav"] "cpu" "p"
            (fun _ => Model.mk (fun p => p.length))).1,
          assign_labels (extract_embeddings [] "cpu" "p"
            (fun _ => Model.mk (fun p => p.length))).1⟩] ∧
      "out" ∈ store1.dirsMade ∧
      store1.db = ([] : DbMap Nat) :=
  C7_npy_layout ⟨"dd", "tj", "sj", "p", .npy, "out"⟩
    (World.mk [("tj", manifestOfNames ["a.wav"]), ("sj", manifestOfNames [])]
      [("dd", [SubDir.mk "en" ["a.wav"]])])
    false (fun _ => Model.mk (fun p => p.length)) (Store.mk [] [] [])
    ["dd/en/a.wav"] [] rfl rfl rfl rfl rfl

/-- C8: for a manifest whose entries all resolve except exactly one, the
locator raises no error and omits that entry, so its output — and the
downstream record count after extraction — is exactly the manifest length
minus one. -/
theorem C8_skip_one {Emb : Type} (json_file dataset_dir : String)
    (w : World) (pre post : List String) (bad : String)
    (subdirs : List SubDir) (device pretrain_dir : String)
    (loader : String → Model Emb)
    (hm : lookupStr w.manifests json_file =
      some (manifestOfNames (pre ++ bad :: post)))
    (hd : lookupStr w.dirListings dataset_dir = some subdirs)
    (hbad : findDir subdirs bad = none)
    (hrest : ∀ n ∈ pre ++ post, (findDir subdirs n).isSome) :
    ∃ out, get_audio_path json_file dataset_dir w = .ok out ∧
      out.length + 1 = (pre ++ bad :: post).length ∧
      (extract_embeddings out device pretrain_dir loader).1.length + 1 =
        (pre ++ bad :: post).length := by
  have hok : get_audio_path json_file dataset_dir w =
      .ok ((pre ++ bad :: post).filterMap
        (resolveName dataset_dir subdirs)) := by
    simp only [get_audio_path, hm, hd]
    exact locateItems_manifestOfNames dataset_dir subdirs (pre ++ bad :: post)
  have hsome : ∀ n ∈ pre ++ post,
      ((resolveName dataset_dir subdirs) n).isSome := by
    intro n hn
    have h := hrest n hn
    cases hfd : findDir subdirs n with
    | none => rw [hfd] at h; simp at h
    | some d => simp [resolveName, hfd]
  have hlen : ((pre ++ bad :: post).filterMap
      (resolveName dataset_dir subdirs)).length + 1 =
      (pre ++ bad :: post).length := by
    rw [List.filterMap_append, List.filterMap_cons]
    have hbad2 : resolveName dataset_dir subdirs bad = none := by
      simp [resolveName, hbad]
    rw [hbad2]
    simp only [List.length_append, List.length_cons]
    rw [length_filterMap_all_some _ pre
        (fun n hn => hsome n (List.mem_append.mpr (Or.inl hn))),
      length_filterMap_all_some _ post
        (fun n hn => hsome n (List.mem_append.mpr (Or.inr hn)))]
    omega
  refine ⟨_, hok, hlen, ?_⟩
  rw [extract_embeddings_records, List.length_map]
  exact hlen

theorem C8_skip_one_witness :
    ∃ out, get_audio_path "tj" "dd"
        (World.mk [("tj", manifestOfNames ["a.wav", "zz.wav", "b.wav"])]
          [("dd", [SubDir.mk "en" ["a.wav"], SubDir.mk "ru" ["b.wav"]])]) =
      .ok out ∧
      out.length + 1 =
        ((["a.wav"] : List String) ++ "zz.wav" :: ["b.wav"]).length ∧
      (extract_embeddings out "cpu" "p"
          (fun _ => Model.mk (fun p => p.length))).1.length + 1 =
        ((["a.wav"] : List String) ++ "zz.wav" :: ["b.wav"]).length :=
  C8_skip_one "tj" "dd"
    (World.mk [("tj", manifestOfNames ["a.wav", "zz.wav", "b.wav"])]
      [("dd", [SubDir.mk "en" ["a.wav"], SubDir.mk "ru" ["b.wav"]])])
    ["a.wav"] ["b.wav"] "zz.wav"
    [SubDir.mk "en" ["a.wav"], SubDir.mk "ru" ["b.wav"]] "cpu" "p"
    (fun _ => Model.mk (fun p => p.length))
    (by decide) rfl (by decide) (by decide)

theorem save_to_npy_idem {Emb : Type} (E : List (SplitDict Emb))
    (p : String) (files : List (String × List (SplitDict Emb))) :
    save_to_npy E p (save_to_npy E p files) = save_to_npy E p files :=
  setEntry_setEntry_self files (joinPath p "numpy_embs.npy") E E

/-- Evaluation of `main` on a successful npy run. -/
theorem main_npy_eq {Emb : Type} (args : Args) (w : World) (cuda : Bool)
    (loader : String → Model Emb) (store : Store Emb) (tp sp : List String)
    (h1 : pathExists w args.train_dir = true)
    (h2 : pathExists w args.test_dir = true)
    (hg1 : get_audio_path args.train_dir args.dataset_dir w = .ok tp)
    (hg2 : get_audio_path args.test_dir args.dataset_dir w = .ok sp)
    (hout : args.output = .npy) :
    main args w cuda loader store =
      (.ok (Store.mk
        (save_to_npy
          [SplitDict.mk
            (assign_labels (extract_embeddings tp
              (if cuda then "cuda" else "cpu") args.pretrain_dir loader).1)
            (assign_labels (extract_embeddings sp
              (if cuda then "cuda" else "cpu") args.pretrain_dir loader).1)]
          args.save_path store.files)
        (makeDirs store.dirsMade args.save_path)
        store.db),
       (extract_embeddings tp (if cuda then "cuda" else "cpu")
          args.pretrain_dir loader).2 ++
        (extract_embeddings sp (if cuda then "cuda" else "cpu")
          args.pretrain_dir loader).2) := by
  simp [main, h1, h2, hg1, hg2, hout]

/-- C6: running the array-file strategy a second time with identical inputs,
starting from the store the first run produced, rewrites the same file with
byte-for-byte identical content: the second run returns exactly the first
run's store (and the same trace). -/
theorem C6_npy_idempotent {Emb : Type} (args : Args) (w : World)
    (cuda : Bool) (loader : String → Model Emb) (store store1 : Store Emb)
    (evs : List Event) (hout : args.output = .npy)
    (h : main args w cuda loader store = (.ok store1, evs)) :
    main args w cuda loader store1 = (.ok store1, evs) := by
  cases h1 : pathExists w args.train_dir with
  | false => simp [main, h1] at h
  | true =>
      cases h2 : pathExists w args.test_dir with
      | false => simp [main, h1, h2] at h
      | true =>
          cases hg1 : get_audio_path args.train_dir args.dataset_dir w with
          | error e => simp [main, h1, h2, hg1] at h
          | ok tp =>
              cases hg2 : get_audio_path args.test_dir
                  args.dataset_dir w with
              | error e => simp [main, h1, h2, hg1, hg2] at h
              | ok sp =>
                  rw [main_npy_eq args w cuda loader store tp sp
                    h1 h2 hg1 hg2 hout] at h
                  injection h with hst hev
                  injection hst with hst
                  rw [main_npy_eq args w cuda loader store1 tp sp
                    h1 h2 hg1 hg2 hout, ← hst, ← hev]
                  simp only [save_to_npy_idem, makeDirs_makeDirs]

theorem C6_npy_idempotent_witness :
    main ⟨"dd", "tj", "sj", "p", .npy, "out"⟩
        (World.mk [("tj", manifestOfNames ["a.wav"]),
          ("sj", manifestOfNames [])]
          [("dd", [SubDir.mk "en" ["a.wav"]])])
        false (fun _ => Model.mk (fun p => p.length))
        (Store.mk [("out/numpy_embs.npy",
          [SplitDict.mk [Record.mk "dd/en/a.wav" 11 (some "en")] []])]
          ["out"] []) =
      (.ok (Store.mk [("out/numpy_embs.npy",
          [SplitDict.mk [Record.mk "dd/en/a.wav" 11 (some "en")] []])]
          ["out"] []),
       [.loadModel "p", .setDevice "cpu", .extract "dd/en/a.wav",
        .loadModel "p", .setDevice "cpu"]) :=
  C6_npy_idempotent ⟨"dd", "tj", "sj", "p", .npy, "out"⟩
    (World.mk [("tj", manifestOfNames ["a.wav"]),
      ("sj", manifestOfNames [])]
      [("dd", [SubDir.mk "en" ["a.wav"]])])
    false (fun _ => Model.mk (fun p => p.length))
    (Store.mk [] [] [])
    (Store.mk [("out/numpy_embs.npy",
      [SplitDict.mk [Record.mk "dd/en/a.wav" 11 (some "en")] []])]
      ["out"] [])
    [.loadModel "p", .setDevice "cpu", .extract "dd/en/a.wav",
     .loadModel "p", .setDevice "cpu"]
    rfl (by rfl)

/-- Evaluation of `save_to_chromadb` on fully labeled records: it updates
the collection `"gender_embeddings"` of the database at `db_path` by adding
(upserting) the batch's records in order. -/
theorem save_to_chromadb_eq {Emb : Type} (items : List (Record Emb))
    (db_path split : String) (db : DbMap Emb)
    (h : ∀ r ∈ items, r.label ≠ none) :
    save_to_chromadb items db_path split db =
      .ok (setEntry db db_path
        (setEntry ((lookupStr db db_path).getD []) "gender_embeddings"
          (addAll (collectionAt db db_path)
            (expectedFrom split 0 items)))) := by
  simp only [save_to_chromadb, metadatasOf_all_some split items h]
  rw [List.range_eq_range' items.length, collAdd_range']
  rfl

/-- C3: writing `N` labeled train records then `M` labeled test records into
an empty store produces exactly `N + M` records in collection
`"gender_embeddings"`, with ids `train_0 .. train_(N-1)` then
`test_0 .. test_(M-1)`, each record carrying the source record's embedding
and the metadata `{file_path, label, split}` (that is what `expectedFrom`
builds); re-inserting the same two batches replaces the records with those
ids, leaving the database exactly as it was. -/
theorem C3_chromadb_spec {Emb : Type} (train test : List (Record Emb))
    (path : String)
    (ht : ∀ r ∈ train, r.label ≠ none) (hs : ∀ r ∈ test, r.label ≠ none) :
    ∃ d1 d2 : DbMap Emb,
      save_to_chromadb train path "train" [] = .ok d1 ∧
      save_to_chromadb test path "test" d1 = .ok d2 ∧
      collectionAt d2 path =
        expectedFrom "train" 0 train ++ expectedFrom "test" 0 test ∧
      (collectionAt d2 path).length = train.length + test.length ∧
      (collectionAt d2 path).map (fun r => r.id) =
        (List.range train.length).map (idStr "train") ++
          (List.range test.length).map (idStr "test") ∧
      ∃ d3 d4, save_to_chromadb train path "train" d2 = .ok d3 ∧
        save_to_chromadb test path "test" d3 = .ok d4 ∧ d4 = d2 := by
  have haddTr : addAll [] (expectedFrom "train" 0 train) =
      expectedFrom "train" 0 train := by
    have := addAll_fresh (expectedFrom "train" 0 train) [] (by simp)
      (expectedFrom_ids_nodup "train" 0 train)
    simpa using this
  have h1 : save_to_chromadb train path "train" ([] : DbMap Emb) =
      .ok [(path, [("gender_embeddings", expectedFrom "train" 0 train)])] := by
    rw [save_to_chromadb_eq train path "train" [] ht]
    simp [collectionAt, lookupStr, setEntry, haddTr]
  have hfreshTe : ∀ r ∈ expectedFrom "test" 0 test,
      r.id ∉ (expectedFrom "train" 0 train).map (fun x => x.id) := by
    intro r hr hmem
    have hidTe : r.id ∈ (expectedFrom "test" 0 test).map (fun x => x.id) :=
      List.mem_map.mpr ⟨r, hr, rfl⟩
    rw [expectedFrom_ids] at hidTe hmem
    obtain ⟨j, _, hj⟩ := List.mem_map.mp hidTe
    obtain ⟨i, _, hi⟩ := List.mem_map.mp hmem
    exact idStr_train_ne_test i j (hi.trans hj.symm)
  have haddTe : addAll (expectedFrom "train" 0 train)
      (expectedFrom "test" 0 test) =
      expectedFrom "train" 0 train ++ expectedFrom "test" 0 test :=
    addAll_fresh (expectedFrom "test" 0 test) (expectedFrom "train" 0 train)
      hfreshTe (expectedFrom_ids_nodup "test" 0 test)
  have h2 : save_to_chromadb test path "test"
      [(path, [("gender_embeddings", expectedFrom "train" 0 train)])] =
      .ok [(path, [("gender_embeddings",
        expectedFrom "train" 0 train ++ expectedFrom "test" 0 test)])] := by
    rw [save_to_chromadb_eq test path "test" _ hs]
    simp [collectionAt, lookupStr, setEntry, haddTe]
  have hcoll : collectionAt
      [(path, [("gender_embeddings",
        expectedFrom "train" 0 train ++ expectedFrom "test" 0 test)])] path =
      expectedFrom "train" 0 train ++ expectedFrom "test" 0 test := by
    simp [collectionAt, lookupStr]
  have hnodupAll : (((expectedFrom "train" 0 train ++
      expectedFrom "test" 0 test)).map (fun x => x.id)).Nodup := by
    rw [List.map_append]
    refine List.Nodup.append (expectedFrom_ids_nodup "train" 0 train)
      (expectedFrom_ids_nodup "test" 0 test) ?_
    intro a ha hb
    rw [expectedFrom_ids] at ha hb
    obtain ⟨i, _, hi⟩ := List.mem_map.mp ha
    obtain ⟨j, _, hj⟩ := List.mem_map.mp hb
    exact idStr_train_ne_test i j (hi.trans hj.symm)
  have huniq := List.inj_on_of_nodup_map hnodupAll
  have haddTr2 : addAll (expectedFrom "train" 0 train ++
      expectedFrom "test" 0 test) (expectedFrom "train" 0 train) =
      expectedFrom "train" 0 train ++ expectedFrom "test" 0 test :=
    addAll_id_self (expectedFrom "train" 0 train) _
      (fun r hr => List.mem_append_left _ hr) huniq
  have haddTe2 : addAll (expectedFrom "train" 0 train ++
      expectedFrom "test" 0 test) (expectedFrom "test" 0 test) =
      expectedFrom "train" 0 train ++ expectedFrom "test" 0 test :=
    addAll_id_self (expectedFrom "test" 0 test) _
      (fun r hr => List.mem_append_right _ hr) huniq
  have h3 : save_to_chromadb train path "train"
      [(path, [("gender_embeddings",
        expectedFrom "train" 0 train ++ expectedFrom "test" 0 test)])] =
      .ok [(path, [("gender_embeddings",
        expectedFrom "train" 0 train ++ expectedFrom "test" 0 test)])] := by
    rw [save_to_chromadb_eq train path "train" _ ht]
    simp [collectionAt, lookupStr, setEntry, haddTr2]
  have h4 : save_to_chromadb test path "test"
      [(path, [("gender_embeddings",
        expectedFrom "train" 0 train ++ expectedFrom "test" 0 test)])] =
      .ok [(path, [("gender_embeddings",
        expectedFrom "train" 0 train ++ expectedFrom "test" 0 test)])] := by
    rw [save_to_chromadb_eq test path "test" _ hs]
    simp [collectionAt, lookupStr, setEntry, haddTe2]
  refine ⟨_, _, h1, h2, hcoll, ?_, ?_, _, _, h3, h4, rfl⟩
  · rw [hcoll, List.length_append, expectedFrom_length, expectedFrom_length]
  · rw [hcoll, List.map_append, expectedFrom_ids, expectedFrom_ids,
      List.range_eq_range' train.length, List.range_eq_range' test.length]

theorem C3_chromadb_spec_witness :
    ∃ d1 d2 : DbMap Nat,
      save_to_chromadb [Record.mk "dd/en/a.wav" 11 (some "en")]
          "out" "train" [] = .ok d1 ∧
      save_to_chromadb
          [Record.mk "dd/ru/b.wav" 11 (some "ru"),
           Record.mk "dd/en/c.wav" 11 (some "en")] "out" "test" d1 =
        .ok d2 ∧
      collectionAt d2 "out" =
        expectedFrom "train" 0 [Record.mk "dd/en/a.wav" 11 (some "en")] ++
          expectedFrom "test" 0
            [Record.mk "dd/ru/b.wav" 11 (some "ru"),
             Record.mk "dd/en/c.wav" 11 (some "en")] ∧
      (collectionAt d2 "out").length =
        ([Record.mk "dd/en/a.wav" 11 (some "en")] : List (Record Nat)).length +
          ([Record.mk "dd/ru/b.wav" 11 (some "ru"),
            Record.mk "dd/en/c.wav" 11 (some "en")] :
              List (Record Nat)).length ∧
      (collectionAt d2 "out").map (fun r => r.id) =
        (List.range ([Record.mk "dd/en/a.wav" 11 (some "en")] :
            List (Record Nat)).length).map (idStr "train") ++
          (List.range ([Record.mk "dd/ru/b.wav" 11 (some "ru"),
            Record.mk "dd/en/c.wav" 11 (some "en")] :
              List (Record Nat)).length).map (idStr "test") ∧
      ∃ d3 d4, save_to_chromadb [Record.mk "dd/en/a.wav" 11 (some "en")]
          "out" "train" d2 = .ok d3 ∧
        save_to_chromadb
            [Record.mk "dd/ru/b.wav" 11 (some "ru"),
             Record.mk "dd/en/c.wav" 11 (some "en")] "out" "test" d3 =
          .ok d4 ∧ d4 = d2 :=
  C3_chromadb_spec [Record.mk "dd/en/a.wav" 11 (some "en")]
    [Record.mk "dd/ru/b.wav" 11 (some "ru"),
     Record.mk "dd/en/c.wav" 11 (some "en")] "out"
    (by decide) (by decide)

/-- C9 counterexample: with both manifest files present but empty and the
dataset root absent, the orchestrator's validation passes, `dataset_dir`
does not exist — and yet the run completes successfully instead of
aborting: `iterdir` only runs per manifest item, so `get_audio_path` never
touches the missing directory. -/
theorem C9_counterexample :
    pathExists (World.mk [("tj", []), ("sj", [])] []) "tj" = true ∧
    pathExists (World.mk [("tj", []), ("sj", [])] []) "sj" = true ∧
    lookupStr (World.mk [("tj", []), ("sj", [])] []).dirListings "dd" =
      none ∧
    main ⟨"dd", "tj", "sj", "p", .npy, "out"⟩
        (World.mk [("tj", []), ("sj", [])] []) false
        (fun _ => Model.mk (fun p => p.length)) (Store.mk [] [] []) =
      (.ok (Store.mk [("out/numpy_embs.npy", [SplitDict.mk [] []])]
        ["out"] []),
       [.loadModel "p", .setDevice "cpu", .loadModel "p",
        .setDevice "cpu"]) :=
  ⟨rfl, rfl, rfl, rfl⟩

/-- C9 amended: given that validation passed, (a) if `dataset_dir` does not
exist and the two manifests are not both empty, the run aborts inside path
resolution — with the missing-directory error, or with the `KeyError` when
the first processed entry lacks `"filename"` — before any extraction event;
(b) if some manifest entry lacks a `"filename"` field and the dataset root
exists, the run aborts with the `KeyError` before any extraction event.
(The unamended claim fails when both manifests are empty; see the
counterexample.) -/
theorem C9_amended {Emb : Type} (args : Args) (w : World) (cuda : Bool)
    (loader : String → Model Emb) (store : Store Emb)
    (mt ms : List ManifestItem)
    (hmt : lookupStr w.manifests args.train_dir = some mt)
    (hms : lookupStr w.manifests args.test_dir = some ms) :
    (lookupStr w.dirListings args.dataset_dir = none → mt ++ ms ≠ [] →
      ∃ e, (e = Err.fileNotFound args.dataset_dir ∨
          e = Err.keyError "filename") ∧
        main args w cuda loader store = (.error e, [])) ∧
    (∀ subdirs, lookupStr w.dirListings args.dataset_dir = some subdirs →
      (∃ bad ∈ mt ++ ms, lookupStr bad "filename" = none) →
      main args w cuda loader store =
        (.error (.keyError "filename"), [])) := by
  have hp1 : pathExists w args.train_dir = true := by
    simp [pathExists, hmt]
  have hp2 : pathExists w args.test_dir = true := by
    simp [pathExists, hms]
  constructor
  · intro hdl hne
    cases hmt' : mt with
    | nil =>
        have hms' : ms ≠ [] := by
          intro h
          rw [hmt', h] at hne
          exact hne rfl
        obtain ⟨e, he, herr⟩ := locateItems_no_dataset args.dataset_dir ms hms'
        have hge1 : get_audio_path args.train_dir args.dataset_dir w =
            .ok [] := by
          simp [get_audio_path, hmt, hdl, hmt', locateItems]
        have hge2 : get_audio_path args.test_dir args.dataset_dir w =
            .error e := by
          simp only [get_audio_path, hms, hdl]
          exact herr
        exact ⟨e, he, by simp [main, hp1, hp2, hge1, hge2]⟩
    | cons item rest =>
        obtain ⟨e, he, herr⟩ :=
          locateItems_no_dataset args.dataset_dir mt (by simp [hmt'])
        have hge1 : get_audio_path args.train_dir args.dataset_dir w =
            .error e := by
          simp only [get_audio_path, hmt, hdl]
          exact herr
        exact ⟨e, he, by simp [main, hp1, hp2, hge1]⟩
  · intro subdirs hdl hbad
    obtain ⟨bad, hmem, hkey⟩ := hbad
    rcases List.mem_append.mp hmem with hmemt | hmems
    · have hge1 : get_audio_path args.train_dir args.dataset_dir w =
          .error (.keyError "filename") := by
        simp only [get_audio_path, hmt, hdl]
        exact locateItems_missing_key args.dataset_dir subdirs mt
          ⟨bad, hmemt, hkey⟩
      simp [main, hp1, hp2, hge1]
    · rcases locateItems_ok_or_keyError args.dataset_dir subdirs mt with
        herr | ⟨out, hok⟩
      · have hge1 : get_audio_path args.train_dir args.dataset_dir w =
            .error (.keyError "filename") := by
          simp only [get_audio_path, hmt, hdl]
          exact herr
        simp [main, hp1, hp2, hge1]
      · have hge1 : get_audio_path args.train_dir args.dataset_dir w =
            .ok out := by
          simp only [get_audio_path, hmt, hdl]
          exact hok
        have hge2 : get_audio_path args.test_dir args.dataset_dir w =
            .error (.keyError "filename") := by
          simp only [get_audio_path, hms, hdl]
          exact locateItems_missing_key args.dataset_dir subdirs ms
            ⟨bad, hmems, hkey⟩
        simp [main, hp1, hp2, hge1, hge2]

theorem C9_amended_witness :
    ∃ e, (e = Err.fileNotFound "dd" ∨ e = Err.keyError "filename") ∧
      main ⟨"dd", "tj", "sj", "p", .npy, "out"⟩
          (World.mk [("tj", manifestOfNames ["a.wav"]), ("sj", [])] [])
          false (fun _ => Model.mk (fun p => p.length))
          (Store.mk [] [] []) =
        (.error e, []) :=
  (C9_amended ⟨"dd", "tj", "sj", "p", .npy, "out"⟩
    (World.mk [("tj", manifestOfNames ["a.wav"]), ("sj", [])] [])
    false (fun _ => Model.mk (fun p => p.length)) (Store.mk [] [] [])
    (manifestOfNames ["a.wav"]) [] rfl rfl).1 rfl (by decide)

theorem parentName_filterMap (dataset_dir : String) (subdirs : List SubDir)
    (hsub : ∀ d ∈ subdirs, '/' ∉ d.name.data) :
    ∀ names : List String, (∀ n ∈ names, '/' ∉ n.data) →
      (names.filterMap (resolveName dataset_dir subdirs)).map parentName =
        names.filterMap (fun n =>
          (findDir subdirs n).map (fun d => d.name)) := by
  intro names
  induction names with
  | nil => intro _; rfl
  | cons n ns ih =>
      intro h
      have hn := h n (by simp)
      have hns : ∀ m ∈ ns, '/' ∉ m.data := fun m hm => h m (by simp [hm])
      cases hf : findDir subdirs n with
      | none => simp [List.filterMap_cons, resolveName, hf, ih hns]
      | some d =>
          have hd := hsub d (findDir_mem subdirs n d hf)
          simp [List.filterMap_cons, resolveName, hf, ih hns,
            parentName_joinPath dataset_dir d.name n hd hn]

/-- C10: end-to-end (locate, extract, label), when directory-entry names
contain no separator, the label list of the produced records is exactly the
per-entry first-match subdirectory names — so every record's label is the
name of some immediate child of the dataset root that yielded a match,
with manifest order and multiplicity preserved. -/
theorem C10_labels {Emb : Type} (dataset_dir : String)
    (subdirs : List SubDir) (names : List String)
    (device pretrain_dir : String) (loader : String → Model Emb)
    (hsub : ∀ d ∈ subdirs, '/' ∉ d.name.data)
    (hnames : ∀ n ∈ names, '/' ∉ n.data) :
    (assign_labels (extract_embeddings
        (names.filterMap (resolveName dataset_dir subdirs))
        device pretrain_dir loader).1).map (fun r => r.label) =
      (names.filterMap (fun n => (findDir subdirs n).map
        (fun d => d.name))).map some ∧
    ∀ r ∈ assign_labels (extract_embeddings
        (names.filterMap (resolveName dataset_dir subdirs))
        device pretrain_dir loader).1,
      ∃ d ∈ subdirs, r.label = some d.name := by
  have hmap : (assign_labels (extract_embeddings
      (names.filterMap (resolveName dataset_dir subdirs))
      device pretrain_dir loader).1).map (fun r => r.label) =
      ((names.filterMap (resolveName dataset_dir subdirs)).map
        parentName).map some := by
    rw [extract_embeddings_records]
    simp [assign_labels, List.map_map, Function.comp]
  have hkey := parentName_filterMap dataset_dir subdirs hsub names hnames
  constructor
  · rw [hmap, hkey]
  · intro r hr
    have hin : r.label ∈ (assign_labels (extract_embeddings
        (names.filterMap (resolveName dataset_dir subdirs))
        device pretrain_dir loader).1).map (fun r => r.label) :=
      List.mem_map.mpr ⟨r, hr, rfl⟩
    rw [hmap, hkey] at hin
    obtain ⟨x, hx, hxl⟩ := List.mem_map.mp hin
    obtain ⟨n, _, hfn⟩ := List.mem_filterMap.mp hx
    obtain ⟨d, hd, hdn⟩ := Option.map_eq_some'.mp hfn
    exact ⟨d, findDir_mem subdirs n d hd, by rw [← hxl, hdn]⟩

theorem C10_labels_witness :
    (assign_labels (extract_embeddings
        (["a.wav", "zz.wav"].filterMap
          (resolveName "dd" [SubDir.mk "en" ["a.wav"]]))
        "cpu" "p" (fun _ => Model.mk (fun p => p.length))).1).map
      (fun r => r.label) =
      (["a.wav", "zz.wav"].filterMap (fun n =>
        (findDir [SubDir.mk "en" ["a.wav"]] n).map (fun d => d.name))).map
        some ∧
    ∀ r ∈ assign_labels (extract_embeddings
        (["a.wav", "zz.wav"].filterMap
          (resolveName "dd" [SubDir.mk "en" ["a.wav"]]))
        "cpu" "p" (fun _ => Model.mk (fun p => p.length))).1,
      ∃ d ∈ [SubDir.mk "en" ["a.wav"]], r.label = some d.name :=
  C10_labels "dd" [SubDir.mk "en" ["a.wav"]] ["a.wav", "zz.wav"]
    "cpu" "p" (fun _ => Model.mk (fun p => p.length))
    (by decide) (by decide)

end ExtractEmb
